import Mathlib

/-!
Verification of the Feature_Analysis pipeline (scripts/data_preprocessing.py,
scripts/ofi_calculation.py, scripts/cross_impact_analysis.py).

The pandas DataFrame is embedded shallowly: a frame is the list of column
names present plus the list of rows in positional order; a cell is an
`Option ℚ`, with `none` modelling a missing value (NaN) and rationals
standing for the floating-point values (claims are stated up to
floating-point tolerance, so exact rational arithmetic is the reference
semantics). Column labels, which are strings in pandas, are embedded as the
inductive type `ColName`, whose constructors correspond to the column-name
strings the scripts build by interpolation.
-/

namespace FeatureAnalysis

/-- A cell of a table: `none` models a missing value (NaN). -/
abbrev Cell := Option ℚ

/-- Column labels used by the scripts. `other s` covers any further column of
the raw CSV that the pipeline never writes; `future_ret h` corresponds to the
string `future_ret_<h>`, `OFI_level i` to `OFI_level_<i>`, and so on. -/
inductive ColName where
  | system_time
  | midpoint
  | bids_distance (i : ℕ)
  | asks_distance (i : ℕ)
  | bids_notional (i : ℕ)
  | asks_notional (i : ℕ)
  | OFI_level (i : ℕ)
  | OFI_aggregated
  | future_ret (h : ℤ)
  | other (s : String)
  deriving DecidableEq

/-- A row is a total map from column labels to cells; labels whose column is
absent from the frame hold `none`. -/
abbrev Row := ColName → Cell

/-- A pandas DataFrame: which columns are present, and the rows in positional
order. After every `reset_index(drop=True)` the pandas index is `0..n-1`,
which is exactly the positional order of the list, so `reset_index` is the
identity in this model. -/
structure Frame where
  cols : List ColName
  rows : List Row

/-- Elementwise addition of cells, propagating missing values as pandas does. -/
def Cell.add : Cell → Cell → Cell
  | some a, some b => some (a + b)
  | _, _ => none

/-- Elementwise subtraction of cells, propagating missing values. -/
def Cell.sub : Cell → Cell → Cell
  | some a, some b => some (a - b)
  | _, _ => none

/-- Elementwise multiplication of cells, propagating missing values. -/
def Cell.mul : Cell → Cell → Cell
  | some a, some b => some (a * b)
  | _, _ => none

/-- Elementwise division of cells, propagating missing values. Division is
the total rational division (the claims only exercise nonzero denominators:
the literal 2, and midpoints, which the spec requires positive). -/
def Cell.div : Cell → Cell → Cell
  | some a, some b => some (a / b)
  | _, _ => none

/-- What `fillna(0)` does to one cell. -/
def fillCell : Cell → Cell
  | none => some 0
  | some a => some a

/-- Column extraction `df[c]` as a list of cells in row order. -/
def getCol (df : Frame) (c : ColName) : List Cell :=
  df.rows.map (fun r => r c)

/-- The cell of column `c` at positional index `t` (`none` out of range). -/
def getCell (df : Frame) (c : ColName) (t : ℕ) : Cell :=
  match df.rows[t]? with
  | some r => r c
  | none => none

/-- The rational value of a cell, defaulting a missing value to 0; used only
under hypotheses that make the cell present. -/
def val (df : Frame) (c : ColName) (t : ℕ) : ℚ :=
  (getCell df c t).getD 0

/-- Pad or truncate a series to length `n` (frames only ever assign series of
matching length, so in every reachable use this is the identity). -/
def padTo (n : ℕ) (vs : List Cell) : List Cell :=
  vs.take n ++ List.replicate (n - vs.length) none

/-- Column assignment `df[c] = vs`: overwrite the column if present,
otherwise append it as the last column. -/
def setCol (df : Frame) (c : ColName) (vs : List Cell) : Frame :=
  { cols := if c ∈ df.cols then df.cols else df.cols ++ [c]
    rows := List.zipWith (fun r v => Function.update r c v) df.rows (padTo df.rows.length vs) }

/-- Series.shift(k) for `k ≥ 0`: values move down by `k` positions, the top
`k` cells become missing. -/
def shiftPos (k : ℕ) (vs : List Cell) : List Cell :=
  (List.replicate k none ++ vs).take vs.length

/-- Series.shift(-k) for `k ≥ 0`: values move up by `k` positions, the bottom
cells become missing. -/
def shiftNegN (k : ℕ) (vs : List Cell) : List Cell :=
  vs.drop k ++ List.replicate (min k vs.length) none

/-- Series.shift(k) for an arbitrary integer `k`. -/
def shiftZ (k : ℤ) (vs : List Cell) : List Cell :=
  if 0 ≤ k then shiftPos k.toNat vs else shiftNegN (-k).toNat vs

/-- Ordering of cells used by `sort_values`: missing keys sort last
(pandas default na_position is last). -/
def cellLe : Cell → Cell → Prop
  | _, none => True
  | none, some _ => False
  | some a, some b => a ≤ b

instance : DecidableRel cellLe
  | none, none => isTrue trivial
  | some _, none => isTrue trivial
  | none, some _ => isFalse (fun h => h)
  | some a, some b => inferInstanceAs (Decidable (a ≤ b))

/-- Row comparison by the system_time column. -/
def timeLe (r₁ r₂ : Row) : Prop :=
  cellLe (r₁ .system_time) (r₂ .system_time)

instance : DecidableRel timeLe :=
  fun r₁ r₂ => inferInstanceAs (Decidable (cellLe _ _))

instance : IsTotal Cell cellLe where
  total a b := by
    cases a <;> cases b <;> simp [cellLe]
    exact le_total _ _

instance : IsTrans Cell cellLe where
  trans a b c hab hbc := by
    cases a <;> cases b <;> cases c <;> simp [cellLe] at * <;> try exact le_trans hab hbc

instance : IsTotal Row timeLe where
  total r₁ r₂ := IsTotal.total (r := cellLe) _ _

instance : IsTrans Row timeLe where
  trans r₁ r₂ r₃ h₁ h₂ := IsTrans.trans (r := cellLe) _ _ _ h₁ h₂

/-- df.sort_values(system_time): sorting is an external library operation
(declared out of scope by the spec); it is modelled as a stable sort with
missing keys last. -/
def sortFrame (df : Frame) : Frame :=
  { cols := df.cols, rows := df.rows.insertionSort timeLe }

/-- df.fillna(0): every missing cell of every present column becomes 0. -/
def fillnaFrame (df : Frame) : Frame :=
  { cols := df.cols
    rows := df.rows.map (fun r c => if c ∈ df.cols then fillCell (r c) else r c) }

/-- A row with no missing value in any present column. -/
def completeRow (cols : List ColName) (r : Row) : Bool :=
  cols.all (fun c => (r c).isSome)

/-- df.dropna(): keep exactly the rows without missing values. -/
def dropnaFrame (df : Frame) : Frame :=
  { cols := df.cols, rows := df.rows.filter (completeRow df.cols) }

/-- load_and_preprocess_data, after the external read_csv and to_datetime
calls (tabular I/O and datetime parsing are out of scope per the spec): the
argument is the parsed table, with system_time holding the parsed timestamps.
The function sorts by time, resets the index, drops rows with missing values
and resets the index again; both resets are the identity in the list model. -/
def load_and_preprocess_data (df : Frame) : Frame :=
  dropnaFrame (sortFrame df)

/-- The column label the string interpolation side + "s_distance_" + level
produces, for the two side strings the scripts pass. -/
def distCol (level : ℕ) (side : String) : ColName :=
  if side = "bid" then .bids_distance level else .asks_distance level

/-- The column label the string interpolation side + "s_notional_" + level
produces, for the two side strings the scripts pass. -/
def notionalCol (level : ℕ) (side : String) : ColName :=
  if side = "bid" then .bids_notional level else .asks_notional level

/-- reconstruct_price: midpoint + distance for the given level and side. -/
def reconstruct_price (df : Frame) (level : ℕ) (side : String) : List Cell :=
  List.zipWith Cell.add (getCol df .midpoint) (getCol df (distCol level side))

/-- reconstruct_size: the notional column, used directly as size. -/
def reconstruct_size (df : Frame) (level : ℕ) (side : String) : List Cell :=
  getCol df (notionalCol level side)

/-- The per-level OFI series the loop body of compute_ofi_for_btc assigns:
(bid_price - bid_price_prev) * (bid_size + bid_size_prev) / 2
- (ask_price - ask_price_prev) * (ask_size + ask_size_prev) / 2,
where prev is shift(1). -/
def ofiSeries (df : Frame) (level : ℕ) : List Cell :=
  let bid_price := reconstruct_price df level "bid"
  let ask_price := reconstruct_price df level "ask"
  let bid_size := reconstruct_size df level "bid"
  let ask_size := reconstruct_size df level "ask"
  List.zipWith Cell.sub
    ((List.zipWith Cell.mul (List.zipWith Cell.sub bid_price (shiftPos 1 bid_price))
        (List.zipWith Cell.add bid_size (shiftPos 1 bid_size))).map
      (fun c => Cell.div c (some 2)))
    ((List.zipWith Cell.mul (List.zipWith Cell.sub ask_price (shiftPos 1 ask_price))
        (List.zipWith Cell.add ask_size (shiftPos 1 ask_size))).map
      (fun c => Cell.div c (some 2)))

/-- The for-loop of compute_ofi_for_btc over the given level list: each
iteration assigns column OFI_level_<level> computed from the current frame. -/
def addOFILevels (df : Frame) (levels : List ℕ) : Frame :=
  levels.foldl (fun acc level => setCol acc (.OFI_level level) (ofiSeries acc level)) df

/-- compute_ofi_for_btc: sort by system_time, reset the index, assign
OFI_level_i for each level below max_levels, then fillna(0) on the whole
table. -/
def compute_ofi_for_btc (df : Frame) (max_levels : ℕ) : Frame :=
  fillnaFrame (addOFILevels (sortFrame df) (List.range max_levels))

/-- The error kind the spec calls InvalidParameterError; the script raises
the Python ValueError with this message. -/
inductive PipelineError where
  | invalidParameter (msg : String)
  deriving DecidableEq

/-- Row-wise sum as pandas DataFrame.sum(axis=1) computes it: missing cells
are skipped (skipna default), an all-missing row sums to 0. -/
def sumCells (cs : List Cell) : Cell :=
  some (cs.filterMap id).sum

/-- Row-wise mean as pandas DataFrame.mean(axis=1) computes it: missing
cells are skipped; a row with no present cell has a missing mean. -/
def meanCells (cs : List Cell) : Cell :=
  let v := cs.filterMap id
  if v.length = 0 then none else some (v.sum / v.length)

/-- The labels OFI_level_0 .. OFI_level_(max_levels - 1). -/
def ofiColNames (max_levels : ℕ) : List ColName :=
  (List.range max_levels).map (fun i => .OFI_level i)

/-- integrate_multi_level_ofi. The PCA branch calls the external
sklearn PCA(n_components=1).fit_transform on the OFI matrix; that library
call is out of scope and is passed in as the pcaTransform parameter (the
other branches never use it). The dispatch order and the error raised on an
unknown method mirror the script. -/
def integrate_multi_level_ofi (df : Frame) (max_levels : ℕ) (method : String)
    (pcaTransform : List (List Cell) → List Cell) : Except PipelineError Frame :=
  let ofi_cols := ofiColNames max_levels
  let ofi_matrix := df.rows.map (fun r => ofi_cols.map r)
  if method = "PCA" then
    .ok (setCol df .OFI_aggregated (pcaTransform ofi_matrix))
  else if method = "sum" then
    .ok (setCol df .OFI_aggregated (df.rows.map (fun r => sumCells (ofi_cols.map r))))
  else if method = "avg" then
    .ok (setCol df .OFI_aggregated (df.rows.map (fun r => meanCells (ofi_cols.map r))))
  else
    .error (.invalidParameter "Unknown integration method. Choose from PCA, sum, avg.")

/-- compute_short_term_returns: assign
future_ret_<horizon> = midpoint.shift(-horizon) / midpoint - 1
and then dropna() on the whole table. The script performs no validation of
the horizon and contains no raise statement. -/
def compute_short_term_returns (df : Frame) (horizon : ℤ) : Frame :=
  let mid := getCol df .midpoint
  let ret := (List.zipWith Cell.div (shiftZ (-horizon) mid) mid).map
    (fun c => Cell.sub c (some 1))
  dropnaFrame (setCol df (.future_ret horizon) ret)

/-- The frame is sorted ascending by the system_time column. -/
abbrev SortedByTime (df : Frame) : Prop :=
  df.rows.Sorted timeLe

/-- No present column of the frame has a missing cell. -/
abbrev NoMissing (df : Frame) : Prop :=
  ∀ r ∈ df.rows, ∀ c ∈ df.cols, (r c).isSome

/-! Concrete frames used as test inputs for witnesses and counterexamples. -/

/-- A row of a one-level book table with the given timestamp, midpoint,
distances and notionals. -/
def bookRow (t m bd ad bn an : ℚ) : Row := fun c =>
  match c with
  | .system_time => some t
  | .midpoint => some m
  | .bids_distance 0 => some bd
  | .asks_distance 0 => some ad
  | .bids_notional 0 => some bn
  | .asks_notional 0 => some an
  | _ => none

/-- A two-row, one-level book table. -/
def exBook : Frame :=
  { cols := [.system_time, .midpoint, .bids_distance 0, .asks_distance 0,
      .bids_notional 0, .asks_notional 0]
    rows := [bookRow 0 100 (-1) 1 10 20, bookRow 1 102 (-2) 3 30 40] }

/-- A row carrying two per-level OFI values. -/
def ofiRow (t a b : ℚ) : Row := fun c =>
  match c with
  | .system_time => some t
  | .OFI_level 0 => some a
  | .OFI_level 1 => some b
  | _ => none

/-- A one-row frame with two OFI level columns. -/
def exOFI : Frame :=
  { cols := [.system_time, .OFI_level 0, .OFI_level 1]
    rows := [ofiRow 0 3 5] }

/-- A row with a timestamp and a midpoint only. -/
def midRow (t m : ℚ) : Row := fun c =>
  match c with
  | .system_time => some t
  | .midpoint => some m
  | _ => none

/-- A two-row frame with a complete midpoint column. -/
def exMid : Frame :=
  { cols := [.system_time, .midpoint], rows := [midRow 0 100, midRow 1 101] }

/-- A row with a timestamp, a midpoint, and an extra data column x. -/
def gapRow (t m : ℚ) (x : Cell) : Row := fun c =>
  match c with
  | .system_time => some t
  | .midpoint => some m
  | .other _ => x
  | _ => none

/-- A three-row frame whose midpoint column is complete but whose extra
column x is missing in the middle row. -/
def exMidGap : Frame :=
  { cols := [.system_time, .midpoint, .other "x"]
    rows := [gapRow 0 100 (some 1), gapRow 1 101 none, gapRow 2 102 (some 1)] }

/-- A stand-in for the external sklearn PCA transform, used where a concrete
pcaTransform argument is needed; the sum and avg branches never call it. -/
def trivialPCA : List (List Cell) → List Cell := fun _ => []

/-! Helper lemmas about the frame operations. -/

lemma length_padTo (n : ℕ) (vs : List Cell) : (padTo n vs).length = n := by
  simp [padTo]
  omega

lemma padTo_eq_self {n : ℕ} {vs : List Cell} (h : vs.length = n) : padTo n vs = vs := by
  subst h
  simp [padTo]

lemma length_getCol (df : Frame) (c : ColName) : (getCol df c).length = df.rows.length := by
  simp [getCol]

lemma rows_length_setCol (df : Frame) (c : ColName) (vs : List Cell) :
    (setCol df c vs).rows.length = df.rows.length := by
  simp [setCol, length_padTo]

lemma zipWith_const_left {α β γ : Type _} (g : α → γ) :
    ∀ (l₁ : List α) (l₂ : List β), l₁.length ≤ l₂.length →
      List.zipWith (fun a _ => g a) l₁ l₂ = l₁.map g
  | [], _, _ => by simp
  | a :: l₁, [], h => by simp at h
  | a :: l₁, b :: l₂, h => by
    simp only [List.zipWith, List.map]
    rw [zipWith_const_left g l₁ l₂ (by simpa using h)]

lemma zipWith_const_right {α β γ : Type _} (g : β → γ) :
    ∀ (l₁ : List α) (l₂ : List β), l₂.length ≤ l₁.length →
      List.zipWith (fun _ b => g b) l₁ l₂ = l₂.map g
  | _, [], _ => by simp
  | [], b :: l₂, h => by simp at h
  | a :: l₁, b :: l₂, h => by
    simp only [List.zipWith, List.map]
    rw [zipWith_const_right g l₁ l₂ (by simpa using h)]

lemma getCol_setCol_ne (df : Frame) {c c' : ColName} (vs : List Cell) (h : c' ≠ c) :
    getCol (setCol df c vs) c' = getCol df c' := by
  simp only [getCol, setCol, List.map_zipWith, Function.update_noteq h]
  exact zipWith_const_left (fun r => r c') df.rows (padTo df.rows.length vs)
    (by simp [length_padTo])

lemma getCol_setCol_self (df : Frame) (c : ColName) (vs : List Cell) :
    getCol (setCol df c vs) c = padTo df.rows.length vs := by
  simp only [getCol, setCol, List.map_zipWith, Function.update_same]
  rw [zipWith_const_right (fun v => v) df.rows (padTo df.rows.length vs)
    (by simp [length_padTo])]
  simp

lemma mem_cols_setCol_self (df : Frame) (c : ColName) (vs : List Cell) :
    c ∈ (setCol df c vs).cols := by
  by_cases h : c ∈ df.cols <;> simp [setCol, h]

lemma mem_cols_setCol_iff (df : Frame) (c c' : ColName) (vs : List Cell) :
    c' ∈ (setCol df c vs).cols ↔ c' ∈ df.cols ∨ c' = c := by
  by_cases h : c ∈ df.cols
  · simp only [setCol, if_pos h]
    constructor
    · exact Or.inl
    · rintro (hc | hc)
      · exact hc
      · exact hc ▸ h
  · simp [setCol, h]

lemma getCol_getElem?_lt (df : Frame) (c : ColName) (t : ℕ) (h : t < df.rows.length) :
    (getCol df c)[t]? = some (getCell df c t) := by
  obtain ⟨r, hr⟩ : ∃ r, df.rows[t]? = some r := by
    rw [List.getElem?_eq_getElem h]
    exact ⟨_, rfl⟩
  simp [getCol, getCell, hr]

lemma getCell_def (df : Frame) (c : ColName) (t : ℕ) :
    getCell df c t = ((getCol df c)[t]?).getD none := by
  simp only [getCol, List.getElem?_map, getCell]
  cases df.rows[t]? <;> rfl

lemma getCell_of_ge (df : Frame) (c : ColName) (t : ℕ) (h : df.rows.length ≤ t) :
    getCell df c t = none := by
  simp [getCell, List.getElem?_eq_none h]

lemma lt_of_getCell_eq_some {df : Frame} {c : ColName} {t : ℕ} {q : ℚ}
    (h : getCell df c t = some q) : t < df.rows.length := by
  by_contra hlt
  rw [getCell_of_ge df c t (by omega)] at h
  exact Option.noConfusion h

lemma length_shiftPos (k : ℕ) (vs : List Cell) : (shiftPos k vs).length = vs.length := by
  simp [shiftPos]

lemma shiftPos_one_getElem?_succ (vs : List Cell) (t : ℕ) (h : t + 1 < vs.length) :
    (shiftPos 1 vs)[t + 1]? = vs[t]? := by
  rw [shiftPos, List.getElem?_take_of_lt h]
  rw [List.getElem?_append_right (by simp)]
  simp

lemma shiftPos_one_getElem?_zero (vs : List Cell) (h : 0 < vs.length) :
    (shiftPos 1 vs)[0]? = some none := by
  rw [shiftPos, List.getElem?_take_of_lt h]
  rw [List.getElem?_append_left (by simp)]
  simp

lemma distCol_bid (level : ℕ) : distCol level "bid" = .bids_distance level := rfl

lemma distCol_ask (level : ℕ) : distCol level "ask" = .asks_distance level := rfl

lemma notionalCol_bid (level : ℕ) : notionalCol level "bid" = .bids_notional level := rfl

lemma notionalCol_ask (level : ℕ) : notionalCol level "ask" = .asks_notional level := rfl

lemma length_reconstruct_price (df : Frame) (level : ℕ) (side : String) :
    (reconstruct_price df level side).length = df.rows.length := by
  simp [reconstruct_price, length_getCol]

lemma length_ofiSeries (df : Frame) (level : ℕ) :
    (ofiSeries df level).length = df.rows.length := by
  simp [ofiSeries, reconstruct_size, length_reconstruct_price, length_shiftPos, length_getCol]

lemma ofiSeries_congr {df df' : Frame} (level : ℕ)
    (hm : getCol df .midpoint = getCol df' .midpoint)
    (hbd : getCol df (.bids_distance level) = getCol df' (.bids_distance level))
    (had : getCol df (.asks_distance level) = getCol df' (.asks_distance level))
    (hbn : getCol df (.bids_notional level) = getCol df' (.bids_notional level))
    (han : getCol df (.asks_notional level) = getCol df' (.asks_notional level)) :
    ofiSeries df level = ofiSeries df' level := by
  simp only [ofiSeries, reconstruct_price, reconstruct_size, distCol_bid, distCol_ask,
    notionalCol_bid, notionalCol_ask, hm, hbd, had, hbn, han]

lemma addOFILevels_nil (df : Frame) : addOFILevels df [] = df := rfl

lemma addOFILevels_cons (df : Frame) (l : ℕ) (ls : List ℕ) :
    addOFILevels df (l :: ls) =
      addOFILevels (setCol df (.OFI_level l) (ofiSeries df l)) ls := rfl

lemma rows_length_addOFILevels :
    ∀ (levels : List ℕ) (df : Frame),
      (addOFILevels df levels).rows.length = df.rows.length
  | [], df => rfl
  | l :: ls, df => by
    rw [addOFILevels_cons, rows_length_addOFILevels ls, rows_length_setCol]

lemma getCol_addOFILevels_not_mem :
    ∀ (levels : List ℕ) (df : Frame) (c : ColName),
      (∀ l ∈ levels, c ≠ ColName.OFI_level l) →
      getCol (addOFILevels df levels) c = getCol df c
  | [], df, c, _ => rfl
  | l :: ls, df, c, h => by
    rw [addOFILevels_cons,
      getCol_addOFILevels_not_mem ls _ c (fun l' hl' => h l' (List.mem_cons_of_mem _ hl')),
      getCol_setCol_ne _ _ (h l (List.mem_cons_self _ _))]

lemma ofiSeries_setCol_ofi (df : Frame) (l level : ℕ) (vs : List Cell) :
    ofiSeries (setCol df (.OFI_level l) vs) level = ofiSeries df level := by
  apply ofiSeries_congr <;> exact getCol_setCol_ne _ _ (by simp)

lemma ofiSeries_addOFILevels (levels : List ℕ) (df : Frame) (level : ℕ) :
    ofiSeries (addOFILevels df levels) level = ofiSeries df level := by
  apply ofiSeries_congr <;>
    exact getCol_addOFILevels_not_mem levels df _ (fun l _ => by simp)

lemma getCol_addOFILevels_mem :
    ∀ (levels : List ℕ) (df : Frame) (i : ℕ), i ∈ levels → levels.Nodup →
      getCol (addOFILevels df levels) (.OFI_level i) = ofiSeries df i
  | [], _, _, hmem, _ => absurd hmem (List.not_mem_nil _)
  | l :: ls, df, i, hmem, hnd => by
    rw [addOFILevels_cons]
    rcases List.mem_cons.mp hmem with hil | hils
    · subst hil
      have hnotls : i ∉ ls := (List.nodup_cons.mp hnd).1
      rw [getCol_addOFILevels_not_mem ls _ _
          (fun l' hl' h => hnotls (by cases h; exact hl')),
        getCol_setCol_self,
        padTo_eq_self (length_ofiSeries df i)]
    · rw [getCol_addOFILevels_mem ls _ i hils (List.nodup_cons.mp hnd).2,
        ofiSeries_setCol_ofi]

lemma mem_cols_addOFILevels :
    ∀ (levels : List ℕ) (df : Frame) (c : ColName),
      c ∈ df.cols ∨ (∃ l ∈ levels, c = ColName.OFI_level l) →
      c ∈ (addOFILevels df levels).cols
  | [], df, c, h => by
    rcases h with h | ⟨l, hl, _⟩
    · exact h
    · exact absurd hl (List.not_mem_nil _)
  | l :: ls, df, c, h => by
    rw [addOFILevels_cons]
    apply mem_cols_addOFILevels ls
    rcases h with h | ⟨l', hl', rfl⟩
    · exact Or.inl ((mem_cols_setCol_iff _ _ _ _).mpr (Or.inl h))
    · rcases List.mem_cons.mp hl' with rfl | hls
      · exact Or.inl (mem_cols_setCol_self _ _ _)
      · exact Or.inr ⟨l', hls, rfl⟩

lemma mem_cols_addOFILevels_iff :
    ∀ (levels : List ℕ) (df : Frame) (c : ColName),
      c ∈ (addOFILevels df levels).cols ↔
        c ∈ df.cols ∨ (∃ l ∈ levels, c = ColName.OFI_level l)
  | [], df, c => by simp [addOFILevels_nil]
  | l :: ls, df, c => by
    rw [addOFILevels_cons, mem_cols_addOFILevels_iff ls, mem_cols_setCol_iff]
    constructor
    · rintro ((h | rfl) | ⟨l', hl', rfl⟩)
      · exact Or.inl h
      · exact Or.inr ⟨l, List.mem_cons_self _ _, rfl⟩
      · exact Or.inr ⟨l', List.mem_cons_of_mem _ hl', rfl⟩
    · rintro (h | ⟨l', hl', rfl⟩)
      · exact Or.inl (Or.inl h)
      · rcases List.mem_cons.mp hl' with rfl | hls
        · exact Or.inl (Or.inr rfl)
        · exact Or.inr ⟨l', hls, rfl⟩

lemma cols_addOFILevels :
    ∀ (levels : List ℕ) (df : Frame),
      (∀ l ∈ levels, ColName.OFI_level l ∉ df.cols) → levels.Nodup →
      (addOFILevels df levels).cols = df.cols ++ levels.map ColName.OFI_level
  | [], df, _, _ => by simp [addOFILevels_nil]
  | l :: ls, df, h, hnd => by
    rw [addOFILevels_cons,
      cols_addOFILevels ls _
        (fun l' hl' => by
          rw [mem_cols_setCol_iff]
          rintro (hmem | heq)
          · exact h l' (List.mem_cons_of_mem _ hl') hmem
          · exact (List.nodup_cons.mp hnd).1
              (by cases ColName.OFI_level.inj heq; exact hl'))
        (List.nodup_cons.mp hnd).2]
    have hl : ColName.OFI_level l ∉ df.cols := h l (List.mem_cons_self _ _)
    simp [setCol, hl]

lemma getCol_fillnaFrame_mem {df : Frame} {c : ColName} (h : c ∈ df.cols) :
    getCol (fillnaFrame df) c = (getCol df c).map fillCell := by
  simp [getCol, fillnaFrame, h]

lemma getCol_fillnaFrame_not_mem {df : Frame} {c : ColName} (h : c ∉ df.cols) :
    getCol (fillnaFrame df) c = getCol df c := by
  simp [getCol, fillnaFrame, h]

lemma cols_fillnaFrame (df : Frame) : (fillnaFrame df).cols = df.cols := rfl

lemma rows_length_fillnaFrame (df : Frame) :
    (fillnaFrame df).rows.length = df.rows.length := by
  simp [fillnaFrame]

lemma sortFrame_eq_of_sorted {df : Frame} (h : SortedByTime df) : sortFrame df = df := by
  cases df with
  | mk cols rows => simp [sortFrame, List.Sorted.insertionSort_eq h]

lemma cols_sortFrame (df : Frame) : (sortFrame df).cols = df.cols := rfl

lemma rows_length_sortFrame (df : Frame) :
    (sortFrame df).rows.length = df.rows.length :=
  (List.perm_insertionSort timeLe df.rows).length_eq

lemma length_reconstruct_size (df : Frame) (level : ℕ) (side : String) :
    (reconstruct_size df level side).length = df.rows.length := by
  simp [reconstruct_size, length_getCol]

lemma cell_sub_none (c : Cell) : Cell.sub c none = none := by cases c <;> rfl

lemma cell_none_mul (c : Cell) : Cell.mul none c = none := by cases c <;> rfl

lemma cell_none_div (c : Cell) : Cell.div none c = none := by cases c <;> rfl

lemma getElem?_isSome_of_lt {α : Type _} {l : List α} {t : ℕ} (h : t < l.length) :
    ∃ x, l[t]? = some x :=
  ⟨l[t], List.getElem?_eq_getElem h⟩

lemma getCol_compute_ofi_level (df : Frame) (L i : ℕ) (hi : i < L) :
    getCol (compute_ofi_for_btc df L) (.OFI_level i) =
      (ofiSeries (sortFrame df) i).map fillCell := by
  unfold compute_ofi_for_btc
  rw [getCol_fillnaFrame_mem
      (mem_cols_addOFILevels _ _ _ (Or.inr ⟨i, List.mem_range.mpr hi, rfl⟩)),
    getCol_addOFILevels_mem _ _ _ (List.mem_range.mpr hi) (List.nodup_range L)]

lemma ofiSeries_getElem?_zero (df : Frame) (i : ℕ) (h : 0 < df.rows.length) :
    (ofiSeries df i)[0]? = some none := by
  obtain ⟨bp, hbp⟩ := getElem?_isSome_of_lt
    (l := reconstruct_price df i "bid") (by rw [length_reconstruct_price]; exact h)
  obtain ⟨ap, hap⟩ := getElem?_isSome_of_lt
    (l := reconstruct_price df i "ask") (by rw [length_reconstruct_price]; exact h)
  obtain ⟨bs, hbs⟩ := getElem?_isSome_of_lt
    (l := reconstruct_size df i "bid") (by rw [length_reconstruct_size]; exact h)
  obtain ⟨as, has⟩ := getElem?_isSome_of_lt
    (l := reconstruct_size df i "ask") (by rw [length_reconstruct_size]; exact h)
  have hbps := shiftPos_one_getElem?_zero (reconstruct_price df i "bid")
    (by rw [length_reconstruct_price]; exact h)
  have haps := shiftPos_one_getElem?_zero (reconstruct_price df i "ask")
    (by rw [length_reconstruct_price]; exact h)
  have hbss := shiftPos_one_getElem?_zero (reconstruct_size df i "bid")
    (by rw [length_reconstruct_size]; exact h)
  have hass := shiftPos_one_getElem?_zero (reconstruct_size df i "ask")
    (by rw [length_reconstruct_size]; exact h)
  simp only [ofiSeries, List.getElem?_zipWith, List.getElem?_map,
    hbp, hap, hbs, has, hbps, haps, hbss, hass,
    cell_sub_none, cell_none_mul, cell_none_div, Option.map_some']

lemma ofiSeries_getElem?_succ (df : Frame) (i t : ℕ) (h : t + 1 < df.rows.length) :
    (ofiSeries df i)[t + 1]? = some (Cell.sub
      (Cell.div (Cell.mul
        (Cell.sub (Cell.add (getCell df .midpoint (t + 1)) (getCell df (.bids_distance i) (t + 1)))
          (Cell.add (getCell df .midpoint t) (getCell df (.bids_distance i) t)))
        (Cell.add (getCell df (.bids_notional i) (t + 1)) (getCell df (.bids_notional i) t)))
        (some 2))
      (Cell.div (Cell.mul
        (Cell.sub (Cell.add (getCell df .midpoint (t + 1)) (getCell df (.asks_distance i) (t + 1)))
          (Cell.add (getCell df .midpoint t) (getCell df (.asks_distance i) t)))
        (Cell.add (getCell df (.asks_notional i) (t + 1)) (getCell df (.asks_notional i) t)))
        (some 2))) := by
  have ht : t < df.rows.length := Nat.lt_of_succ_lt h
  have hm1 := getCol_getElem?_lt df .midpoint (t + 1) h
  have hm0 := getCol_getElem?_lt df .midpoint t ht
  have hbd1 := getCol_getElem?_lt df (.bids_distance i) (t + 1) h
  have hbd0 := getCol_getElem?_lt df (.bids_distance i) t ht
  have had1 := getCol_getElem?_lt df (.asks_distance i) (t + 1) h
  have had0 := getCol_getElem?_lt df (.asks_distance i) t ht
  have hbn1 := getCol_getElem?_lt df (.bids_notional i) (t + 1) h
  have hbn0 := getCol_getElem?_lt df (.bids_notional i) t ht
  have han1 := getCol_getElem?_lt df (.asks_notional i) (t + 1) h
  have han0 := getCol_getElem?_lt df (.asks_notional i) t ht
  have hbp1 : (reconstruct_price df i "bid")[t + 1]? =
      some (Cell.add (getCell df .midpoint (t + 1)) (getCell df (.bids_distance i) (t + 1))) := by
    simp only [reconstruct_price, distCol_bid, List.getElem?_zipWith, hm1, hbd1]
  have hbp0 : (reconstruct_price df i "bid")[t]? =
      some (Cell.add (getCell df .midpoint t) (getCell df (.bids_distance i) t)) := by
    simp only [reconstruct_price, distCol_bid, List.getElem?_zipWith, hm0, hbd0]
  have hap1 : (reconstruct_price df i "ask")[t + 1]? =
      some (Cell.add (getCell df .midpoint (t + 1)) (getCell df (.asks_distance i) (t + 1))) := by
    simp only [reconstruct_price, distCol_ask, List.getElem?_zipWith, hm1, had1]
  have hap0 : (reconstruct_price df i "ask")[t]? =
      some (Cell.add (getCell df .midpoint t) (getCell df (.asks_distance i) t)) := by
    simp only [reconstruct_price, distCol_ask, List.getElem?_zipWith, hm0, had0]
  have hbsz1 : (reconstruct_size df i "bid")[t + 1]? =
      some (getCell df (.bids_notional i) (t + 1)) := by
    simp only [reconstruct_size, notionalCol_bid]
    exact hbn1
  have hbsz0 : (reconstruct_size df i "bid")[t]? =
      some (getCell df (.bids_notional i) t) := by
    simp only [reconstruct_size, notionalCol_bid]
    exact hbn0
  have hasz1 : (reconstruct_size df i "ask")[t + 1]? =
      some (getCell df (.asks_notional i) (t + 1)) := by
    simp only [reconstruct_size, notionalCol_ask]
    exact han1
  have hasz0 : (reconstruct_size df i "ask")[t]? =
      some (getCell df (.asks_notional i) t) := by
    simp only [reconstruct_size, notionalCol_ask]
    exact han0
  have hbps : (shiftPos 1 (reconstruct_price df i "bid"))[t + 1]? =
      some (Cell.add (getCell df .midpoint t) (getCell df (.bids_distance i) t)) := by
    rw [shiftPos_one_getElem?_succ _ t (by rw [length_reconstruct_price]; exact h)]
    exact hbp0
  have haps : (shiftPos 1 (reconstruct_price df i "ask"))[t + 1]? =
      some (Cell.add (getCell df .midpoint t) (getCell df (.asks_distance i) t)) := by
    rw [shiftPos_one_getElem?_succ _ t (by rw [length_reconstruct_price]; exact h)]
    exact hap0
  have hbss : (shiftPos 1 (reconstruct_size df i "bid"))[t + 1]? =
      some (getCell df (.bids_notional i) t) := by
    rw [shiftPos_one_getElem?_succ _ t (by rw [length_reconstruct_size]; exact h)]
    exact hbsz0
  have hass : (shiftPos 1 (reconstruct_size df i "ask"))[t + 1]? =
      some (getCell df (.asks_notional i) t) := by
    rw [shiftPos_one_getElem?_succ _ t (by rw [length_reconstruct_size]; exact h)]
    exact hasz0
  simp only [ofiSeries, List.getElem?_zipWith, List.getElem?_map,
    hbp1, hap1, hbsz1, hasz1, hbps, haps, hbss, hass, Option.map_some']

/-- C1: for a table sorted by timestamp, for every row t+1 (t ≥ 0) and level
i below max_levels, the stored OFI_level_i value equals
(bidPrice(t+1,i) - bidPrice(t,i)) * (bidSize(t+1,i) + bidSize(t,i)) / 2
- (askPrice(t+1,i) - askPrice(t,i)) * (askSize(t+1,i) + askSize(t,i)) / 2,
with prices reconstructed as midpoint + distance and sizes the notionals. -/
theorem ofi_level_formula_matches (df : Frame) (L i t : ℕ) (hi : i < L)
    (hs : SortedByTime df)
    (m m' bd bd' ad ad' bn bn' an an' : ℚ)
    (hm : getCell df .midpoint t = some m)
    (hm' : getCell df .midpoint (t + 1) = some m')
    (hbd : getCell df (.bids_distance i) t = some bd)
    (hbd' : getCell df (.bids_distance i) (t + 1) = some bd')
    (had : getCell df (.asks_distance i) t = some ad)
    (had' : getCell df (.asks_distance i) (t + 1) = some ad')
    (hbn : getCell df (.bids_notional i) t = some bn)
    (hbn' : getCell df (.bids_notional i) (t + 1) = some bn')
    (han : getCell df (.asks_notional i) t = some an)
    (han' : getCell df (.asks_notional i) (t + 1) = some an') :
    getCell (compute_ofi_for_btc df L) (.OFI_level i) (t + 1) =
      some ((m' + bd' - (m + bd)) * (bn' + bn) / 2
        - (m' + ad' - (m + ad)) * (an' + an) / 2) := by
  have hlen : t + 1 < df.rows.length := lt_of_getCell_eq_some hm'
  have hofi := getCol_compute_ofi_level df L i hi
  rw [sortFrame_eq_of_sorted hs] at hofi
  rw [getCell_def, hofi, List.getElem?_map, ofiSeries_getElem?_succ df i t hlen,
    hm, hm', hbd, hbd', had, had', hbn, hbn', han, han']
  simp [Cell.add, Cell.sub, Cell.mul, Cell.div, fillCell]

/-- Witness for C1 on the concrete two-row book exBook at t = 0, level 0. -/
theorem ofi_level_formula_matches_witness :
    getCell (compute_ofi_for_btc exBook 1) (.OFI_level 0) 1 =
      some ((102 + -2 - (100 + -1)) * (30 + 10) / 2
        - (102 + 3 - (100 + 1)) * (40 + 20) / 2) :=
  ofi_level_formula_matches exBook 1 0 0 (by decide) (by decide)
    100 102 (-1) (-2) 1 3 10 30 20 40 rfl rfl rfl rfl rfl rfl rfl rfl rfl rfl

/-- C2: the first row of the table produced by compute_ofi_for_btc has
OFI_level_i equal to 0 for every level i below max_levels. -/
theorem ofi_level_zero_at_first_row (df : Frame) (L i : ℕ) (hi : i < L)
    (h0 : 0 < df.rows.length) :
    getCell (compute_ofi_for_btc df L) (.OFI_level i) 0 = some 0 := by
  have h0s : 0 < (sortFrame df).rows.length := by
    rw [rows_length_sortFrame]
    exact h0
  rw [getCell_def, getCol_compute_ofi_level df L i hi, List.getElem?_map,
    ofiSeries_getElem?_zero (sortFrame df) i h0s]
  simp [fillCell]

/-- Witness for C2 on the concrete two-row book exBook at level 0. -/
theorem ofi_level_zero_at_first_row_witness :
    getCell (compute_ofi_for_btc exBook 1) (.OFI_level 0) 0 = some 0 :=
  ofi_level_zero_at_first_row exBook 1 0 (by decide) (by decide)

lemma getCell_setCol_self (df : Frame) (c : ColName) (vs : List Cell)
    (hlen : vs.length = df.rows.length) (t : ℕ) :
    getCell (setCol df c vs) c t = (vs[t]?).getD none := by
  rw [getCell_def, getCol_setCol_self, padTo_eq_self hlen]

lemma filterMap_id_of_isSome :
    ∀ (l : List Cell), (∀ x ∈ l, x.isSome) →
      l.filterMap id = l.map (fun x => x.getD 0)
  | [], _ => rfl
  | x :: l, h => by
    obtain ⟨v, hv⟩ := Option.isSome_iff_exists.mp (h x (List.mem_cons_self _ _))
    subst hv
    simp only [List.filterMap_cons, id, List.map_cons, Option.getD_some]
    rw [filterMap_id_of_isSome l (fun y hy => h y (List.mem_cons_of_mem _ hy))]

lemma map_fillCell_of_isSome :
    ∀ (l : List Cell), (∀ x ∈ l, x.isSome) → l.map fillCell = l
  | [], _ => rfl
  | x :: l, h => by
    obtain ⟨v, hv⟩ := Option.isSome_iff_exists.mp (h x (List.mem_cons_self _ _))
    subst hv
    simp only [List.map_cons, fillCell]
    rw [map_fillCell_of_isSome l (fun y hy => h y (List.mem_cons_of_mem _ hy))]

lemma integrate_sum_eq (df : Frame) (L : ℕ) (pca : List (List Cell) → List Cell) :
    integrate_multi_level_ofi df L "sum" pca =
      .ok (setCol df .OFI_aggregated
        (df.rows.map (fun r => sumCells ((ofiColNames L).map r)))) := rfl

lemma integrate_avg_eq (df : Frame) (L : ℕ) (pca : List (List Cell) → List Cell) :
    integrate_multi_level_ofi df L "avg" pca =
      .ok (setCol df .OFI_aggregated
        (df.rows.map (fun r => meanCells ((ofiColNames L).map r)))) := rfl

/-- C3: with method sum the aggregated OFI at each row is the sum over the
levels of that row's per-level OFI values, and with method avg it is their
mean (the sum divided by the number of levels). -/
theorem aggregated_sum_and_avg (df : Frame) (L t : ℕ)
    (pca : List (List Cell) → List Cell)
    (ht : t < df.rows.length) (hL : 0 < L)
    (hofi : ∀ i, i < L → (getCell df (.OFI_level i) t).isSome) :
    (∀ g, integrate_multi_level_ofi df L "sum" pca = Except.ok g →
      getCell g .OFI_aggregated t =
        some (((List.range L).map (fun i => val df (.OFI_level i) t)).sum)) ∧
    (∀ g, integrate_multi_level_ofi df L "avg" pca = Except.ok g →
      getCell g .OFI_aggregated t =
        some (((List.range L).map (fun i => val df (.OFI_level i) t)).sum / L)) := by
  obtain ⟨r, hr⟩ := getElem?_isSome_of_lt (l := df.rows) ht
  have hcell : ∀ i, getCell df (.OFI_level i) t = r (.OFI_level i) := by
    intro i
    simp [getCell, hr]
  have hsome : ∀ x ∈ (ofiColNames L).map r, x.isSome := by
    intro x hx
    obtain ⟨c, hc, rfl⟩ := List.mem_map.mp hx
    obtain ⟨i, hi, rfl⟩ := List.mem_map.mp hc
    rw [← hcell i]
    exact hofi i (List.mem_range.mp hi)
  have hfm : ((ofiColNames L).map r).filterMap id =
      (List.range L).map (fun i => val df (.OFI_level i) t) := by
    rw [filterMap_id_of_isSome _ hsome]
    simp only [ofiColNames, List.map_map]
    apply List.map_congr_left
    intro i _
    simp [val, hcell i, Function.comp]
  have hflen : (((ofiColNames L).map r).filterMap id).length = L := by
    rw [hfm]
    simp
  constructor
  · intro g hg
    rw [integrate_sum_eq] at hg
    cases hg
    rw [getCell_setCol_self _ _ _ (by simp) t, List.getElem?_map, hr]
    simp only [Option.map_some', Option.getD_some, sumCells, hfm]
  · intro g hg
    rw [integrate_avg_eq] at hg
    cases hg
    rw [getCell_setCol_self _ _ _ (by simp) t, List.getElem?_map, hr]
    simp only [Option.map_some', Option.getD_some, meanCells]
    rw [if_neg (by rw [hflen]; omega), hfm]
    simp

/-- Witness for C3 on the one-row frame exOFI with OFI values 3 and 5:
sum gives 8, avg gives 4. -/
theorem aggregated_sum_and_avg_witness :
    getCell (setCol exOFI .OFI_aggregated
        (exOFI.rows.map (fun r => sumCells ((ofiColNames 2).map r)))) .OFI_aggregated 0 =
      some 8 ∧
    getCell (setCol exOFI .OFI_aggregated
        (exOFI.rows.map (fun r => meanCells ((ofiColNames 2).map r)))) .OFI_aggregated 0 =
      some 4 := by
  have h := aggregated_sum_and_avg exOFI 2 0 trivialPCA (by decide) (by decide) (by decide)
  refine ⟨?_, ?_⟩
  · rw [h.1 _ rfl]
    rw [show (List.range 2).map (fun i => val exOFI (.OFI_level i) 0) = [3, 5] from rfl]
    norm_num
  · rw [h.2 _ rfl]
    rw [show (List.range 2).map (fun i => val exOFI (.OFI_level i) 0) = [3, 5] from rfl]
    norm_num

/-- C4: any aggregation method outside PCA, sum and avg makes
integrate_multi_level_ofi signal the invalid-parameter error (the Python
ValueError); no frame is produced, so no OFI_aggregated column is added and
there is no fallback to the sum behaviour. -/
theorem invalid_method_signals_error (df : Frame) (L : ℕ)
    (pca : List (List Cell) → List Cell) (m : String)
    (h1 : m ≠ "PCA") (h2 : m ≠ "sum") (h3 : m ≠ "avg") :
    integrate_multi_level_ofi df L m pca =
      .error (.invalidParameter
        "Unknown integration method. Choose from PCA, sum, avg.") := by
  simp [integrate_multi_level_ofi, h1, h2, h3]

/-- Witness for C4 at the concrete method string median. -/
theorem invalid_method_signals_error_witness :
    integrate_multi_level_ofi exOFI 2 "median" trivialPCA =
      .error (.invalidParameter
        "Unknown integration method. Choose from PCA, sum, avg.") :=
  invalid_method_signals_error exOFI 2 trivialPCA "median"
    (by decide) (by decide) (by decide)

/-- C9: the sum and avg aggregations are deterministic: on equal inputs the
results agree exactly, whatever the (external, possibly run-dependent) PCA
solver is, since those branches never consult it. -/
theorem aggregation_deterministic (df : Frame) (L : ℕ) (m : String)
    (pca₁ pca₂ : List (List Cell) → List Cell)
    (h : m = "sum" ∨ m = "avg") :
    integrate_multi_level_ofi df L m pca₁ = integrate_multi_level_ofi df L m pca₂ := by
  rcases h with rfl | rfl <;> rfl

/-- Witness for C9: two runs on exOFI with different PCA stand-ins agree. -/
theorem aggregation_deterministic_witness :
    integrate_multi_level_ofi exOFI 2 "sum" trivialPCA =
      integrate_multi_level_ofi exOFI 2 "sum" (fun _ => [some 0]) :=
  aggregation_deterministic exOFI 2 "sum" trivialPCA (fun _ => [some 0]) (Or.inl rfl)

/-- C7: the loader output keeps the column set, is sorted ascending by the
parsed timestamp, keeps only (and exactly, up to the sort order) the rows
with no missing value in any column, and is stable on ties: two complete
rows in timestamp order in the input stay in that order in the output.
Contiguous reindexing from 0 is the positional order of the row list, which
reset_index(drop=True) makes the pandas index. -/
theorem loader_sorted_complete_stable (df : Frame) :
    (load_and_preprocess_data df).cols = df.cols ∧
    SortedByTime (load_and_preprocess_data df) ∧
    (∀ r ∈ (load_and_preprocess_data df).rows,
      ∀ c ∈ df.cols, (r c).isSome) ∧
    (load_and_preprocess_data df).rows.Perm
      (df.rows.filter (completeRow df.cols)) ∧
    (∀ a b : Row, timeLe a b → [a, b].Sublist df.rows →
      completeRow df.cols a = true → completeRow df.cols b = true →
      [a, b].Sublist (load_and_preprocess_data df).rows) := by
  refine ⟨rfl, ?_, ?_, ?_, ?_⟩
  · exact List.Pairwise.filter _ (List.sorted_insertionSort timeLe df.rows)
  · intro r hr c hc
    have hp := List.of_mem_filter hr
    exact (List.all_eq_true.mp hp) c hc
  · exact (List.perm_insertionSort timeLe df.rows).filter _
  · intro a b hab hsub ha hb
    have h1 : [a, b].Sublist (df.rows.insertionSort timeLe) :=
      List.pair_sublist_insertionSort hab hsub
    have h2 := List.Sublist.filter (completeRow df.cols) h1
    rwa [show List.filter (completeRow df.cols) [a, b] = [a, b] by
      simp [List.filter, ha, hb]] at h2

/-- C8: on a sorted table with no missing values, compute_ofi_for_btc leaves
every pre-existing column (values and row order) unchanged and appends
exactly the OFI_level_i columns, and integrate_multi_level_ofi (whichever
valid method produced its ok result) leaves every pre-existing column
unchanged and appends exactly OFI_aggregated. -/
theorem stages_append_only (df : Frame) (L : ℕ)
    (hs : SortedByTime df) (hnm : NoMissing df)
    (hofi : ∀ l, l < L → ColName.OFI_level l ∉ df.cols) :
    ((∀ c ∈ df.cols, getCol (compute_ofi_for_btc df L) c = getCol df c) ∧
      (compute_ofi_for_btc df L).cols =
        df.cols ++ (List.range L).map ColName.OFI_level) ∧
    (∀ (df₂ : Frame) (m : String) (pca : List (List Cell) → List Cell) (g : Frame),
      ColName.OFI_aggregated ∉ df₂.cols →
      integrate_multi_level_ofi df₂ L m pca = Except.ok g →
      (∀ c ∈ df₂.cols, getCol g c = getCol df₂ c) ∧
      g.cols = df₂.cols ++ [ColName.OFI_aggregated]) := by
  have hseq := sortFrame_eq_of_sorted hs
  refine ⟨⟨?_, ?_⟩, ?_⟩
  · intro c hc
    have hcn : ∀ l ∈ List.range L, c ≠ ColName.OFI_level l :=
      fun l hl heq => hofi l (List.mem_range.mp hl) (heq ▸ hc)
    have h1 : getCol (compute_ofi_for_btc df L) c = (getCol df c).map fillCell := by
      unfold compute_ofi_for_btc
      rw [hseq, getCol_fillnaFrame_mem (mem_cols_addOFILevels _ _ _ (Or.inl hc)),
        getCol_addOFILevels_not_mem _ _ _ hcn]
    rw [h1, map_fillCell_of_isSome]
    intro x hx
    obtain ⟨r, hr, rfl⟩ := List.mem_map.mp hx
    exact hnm r hr c hc
  · unfold compute_ofi_for_btc
    rw [hseq, cols_fillnaFrame,
      cols_addOFILevels _ _ (fun l hl => hofi l (List.mem_range.mp hl))
        (List.nodup_range L)]
  · intro df₂ m pca g hagg heq
    have key : ∀ vs : List Cell,
        (∀ c ∈ df₂.cols, getCol (setCol df₂ .OFI_aggregated vs) c = getCol df₂ c) ∧
        (setCol df₂ .OFI_aggregated vs).cols = df₂.cols ++ [ColName.OFI_aggregated] := by
      intro vs
      constructor
      · intro c hc
        exact getCol_setCol_ne _ _ (fun h => hagg (h ▸ hc))
      · simp [setCol, hagg]
    simp only [integrate_multi_level_ofi] at heq
    split_ifs at heq <;> injection heq with heq <;> subst heq <;> exact key _

/-- Witness for C8 on the concrete book exBook with one level: the column
list gains exactly OFI_level_0, and the midpoint column is unchanged. -/
theorem stages_append_only_witness :
    (compute_ofi_for_btc exBook 1).cols =
      exBook.cols ++ (List.range 1).map ColName.OFI_level ∧
    getCol (compute_ofi_for_btc exBook 1) .midpoint = getCol exBook .midpoint := by
  have h := stages_append_only exBook 1 (by decide) (by decide) (by decide)
  exact ⟨h.1.2, h.1.1 .midpoint (by decide)⟩

/-- C10: the fillna(0) step of compute_ofi_for_btc applies to the whole
table, so a missing entry in any input column (not only the derived OFI
columns) is silently replaced by 0 in the output. -/
theorem fillna_applies_table_wide (df : Frame) (L : ℕ) (c : ColName) (t : ℕ)
    (hs : SortedByTime df) (hc : c ∈ df.cols)
    (hnofi : ∀ l, l < L → c ≠ ColName.OFI_level l)
    (ht : t < df.rows.length)
    (hmiss : getCell df c t = none) :
    getCell (compute_ofi_for_btc df L) c t = some 0 := by
  have hcol : getCol (compute_ofi_for_btc df L) c = (getCol df c).map fillCell := by
    unfold compute_ofi_for_btc
    rw [sortFrame_eq_of_sorted hs,
      getCol_fillnaFrame_mem (mem_cols_addOFILevels _ _ _ (Or.inl hc)),
      getCol_addOFILevels_not_mem _ _ _
        (fun l hl => hnofi l (List.mem_range.mp hl))]
  rw [getCell_def, hcol, List.getElem?_map, getCol_getElem?_lt df c t ht, hmiss]
  rfl

/-- Witness for C10 on exMidGap: the missing x entry of the middle row comes
out as 0. -/
theorem fillna_applies_table_wide_witness :
    getCell (compute_ofi_for_btc exMidGap 1) (.other "x") 1 = some 0 :=
  fillna_applies_table_wide exMidGap 1 (.other "x") 1
    (by decide) (by decide) (by decide) (by decide) rfl

lemma length_shiftNegN (k : ℕ) (vs : List Cell) : (shiftNegN k vs).length = vs.length := by
  simp [shiftNegN]
  omega

lemma zipWith_div_replicate_none :
    ∀ (l : List Cell),
      List.zipWith Cell.div (List.replicate l.length none) l = List.replicate l.length none
  | [] => rfl
  | x :: l => by
    simp only [List.length_cons, List.replicate_succ, List.zipWith_cons_cons, cell_none_div]
    rw [zipWith_div_replicate_none l]

lemma filter_complete_zipWith_none (cols : List ColName) (c : ColName) (hc : c ∈ cols) :
    ∀ (rows : List Row) (vs : List Cell), (∀ x ∈ vs, x = none) →
      (List.zipWith (fun r v => Function.update r c v) rows vs).filter (completeRow cols) = []
  | [], _, _ => by simp
  | r :: rows, [], _ => by simp
  | r :: rows, v :: vs, hall => by
    have hv : v = none := hall v (List.mem_cons_self _ _)
    subst hv
    have hfalse : completeRow cols (Function.update r c none) = false := by
      simp only [completeRow, List.all_eq_false]
      exact ⟨c, hc, by simp⟩
    simp only [List.zipWith_cons_cons, List.filter_cons, hfalse]
    simp only [Bool.false_eq_true, if_false]
    exact filter_complete_zipWith_none cols c hc rows vs
      (fun x hx => hall x (List.mem_cons_of_mem _ hx))

lemma rows_dropna_setCol_none (df : Frame) (c : ColName) (vs : List Cell)
    (hall : ∀ x ∈ vs, x = none) (hlen : vs.length = df.rows.length) :
    (dropnaFrame (setCol df c vs)).rows = [] := by
  have hc := mem_cols_setCol_self df c vs
  show ((setCol df c vs).rows).filter (completeRow (setCol df c vs).cols) = []
  have hrows : (setCol df c vs).rows =
      List.zipWith (fun r v => Function.update r c v) df.rows vs := by
    simp [setCol, padTo_eq_self hlen]
  rw [hrows]
  exact filter_complete_zipWith_none _ c hc df.rows vs hall

lemma filter_eq_take_of_prefix {α : Type _} (p : α → Bool) :
    ∀ (l : List α) (k : ℕ),
      (∀ (i : ℕ) (hi : i < l.length), (p l[i] = true ↔ i < k)) →
      l.filter p = l.take k
  | [], k, _ => by simp
  | a :: l, k, hp => by
    cases k with
    | zero =>
      have h0 := hp 0 (by simp)
      simp only [List.getElem_cons_zero, Nat.lt_irrefl, iff_false,
        Bool.not_eq_true] at h0
      have hrest := filter_eq_take_of_prefix p l 0 (fun i hi => by
        have h1 := hp (i + 1) (by simpa using Nat.succ_lt_succ hi)
        simpa using h1)
      simp [List.filter_cons, h0, hrest]
    | succ m =>
      have h0 := hp 0 (by simp)
      simp only [List.getElem_cons_zero, Nat.succ_pos, iff_true] at h0
      have hrest := filter_eq_take_of_prefix p l m (fun i hi => by
        have h1 := hp (i + 1) (by simpa using Nat.succ_lt_succ hi)
        simpa [Nat.succ_lt_succ_iff] using h1)
      simp [List.filter_cons, h0, hrest]

lemma getCell_eq_val {df : Frame} {c : ColName} {t : ℕ}
    (hnm : NoMissing df) (hc : c ∈ df.cols) (ht : t < df.rows.length) :
    getCell df c t = some (val df c t) := by
  obtain ⟨r, hr⟩ := getElem?_isSome_of_lt ht
  have hmem : r ∈ df.rows := List.getElem?_mem hr
  obtain ⟨v, hv⟩ := Option.isSome_iff_exists.mp (hnm r hmem c hc)
  simp [getCell, val, hr, hv]

/-- C5 (amended): compute_short_term_returns performs no horizon validation
and never signals an error (the source contains no raise statement); for a
horizon at or above the row count every row is dropped and the result is an
empty table rather than an error. The counterexample theorem records that
for the sub-1 horizon h = 0 the function likewise does not signal an error,
returning the full table with zero returns. -/
theorem returns_empty_when_horizon_too_large (df : Frame) (h : ℤ)
    (hge : (df.rows.length : ℤ) ≤ h) :
    (compute_short_term_returns df h).rows = [] := by
  by_cases hn : df.rows.length = 0
  · have hrows : df.rows = [] := List.length_eq_zero.mp hn
    simp [compute_short_term_returns, dropnaFrame, setCol, hrows]
  · have hpos : 0 < df.rows.length := Nat.pos_of_ne_zero hn
    have hmid : (getCol df .midpoint).length = df.rows.length := length_getCol _ _
    have hshift : shiftZ (-h) (getCol df .midpoint) =
        List.replicate df.rows.length none := by
      rw [shiftZ, if_neg (by omega), neg_neg, shiftNegN,
        List.drop_eq_nil_of_le (by rw [hmid]; omega),
        min_eq_right (by rw [hmid]; omega), hmid]
      simp
    have hret : (List.zipWith Cell.div (shiftZ (-h) (getCol df .midpoint))
        (getCol df .midpoint)).map (fun c => Cell.sub c (some 1)) =
        List.replicate df.rows.length none := by
      rw [hshift, ← hmid, zipWith_div_replicate_none, List.map_replicate]
      rfl
    show (dropnaFrame (setCol df (.future_ret h) _)).rows = []
    exact rows_dropna_setCol_none df _ _
      (by rw [hret]; exact fun x hx => List.eq_of_mem_replicate hx)
      (by rw [hret]; simp)

/-- Witness for the amended C5: horizon 5 on the two-row frame exMid yields
an empty table. -/
theorem returns_empty_when_horizon_too_large_witness :
    (compute_short_term_returns exMid 5).rows = [] :=
  returns_empty_when_horizon_too_large exMid 5 (by decide)

/-- Counterexample to C5 as stated: for horizon 0 (< 1) the function does
not signal any error and does not return an empty or crashed result; it
returns the full two-row table with the return column identically 0. The
source of compute_short_term_returns contains no validation and no raise
statement at all. -/
theorem returns_no_error_for_h0_counterexample :
    (compute_short_term_returns exMid 0).rows.length = 2 ∧
    getCell (compute_short_term_returns exMid 0) (.future_ret 0) 0 = some 0 ∧
    getCell (compute_short_term_returns exMid 0) (.future_ret 0) 1 = some 0 := by
  refine ⟨by decide, ?_, ?_⟩
  · rw [show getCell (compute_short_term_returns exMid 0) (.future_ret 0) 0 =
        some ((100 : ℚ) / 100 - 1) from rfl]
    norm_num
  · rw [show getCell (compute_short_term_returns exMid 0) (.future_ret 0) 1 =
        some ((101 : ℚ) / 101 - 1) from rfl]
    norm_num

lemma cell_none_sub (c : Cell) : Cell.sub none c = none := by cases c <;> rfl

lemma dropna_setCol_prefix (df : Frame) (c : ColName) (vs : List Cell) (k : ℕ)
    (hnm : NoMissing df)
    (hlen : vs.length = df.rows.length)
    (hk : k ≤ df.rows.length)
    (hvs_lt : ∀ t, t < k → ∃ q : ℚ, vs[t]? = some (some q))
    (hvs_ge : ∀ t, k ≤ t → t < df.rows.length → vs[t]? = some none) :
    (dropnaFrame (setCol df c vs)).rows.length = k ∧
    (∀ t, t < k →
      getCell (dropnaFrame (setCol df c vs)) c t = (vs[t]?).getD none) := by
  have hrows : (setCol df c vs).rows =
      List.zipWith (fun r v => Function.update r c v) df.rows vs := by
    simp [setCol, padTo_eq_self hlen]
  have hlen' : (List.zipWith (fun r v => Function.update r c v) df.rows vs).length
      = df.rows.length := by
    simp [hlen]
  have hccols : c ∈ (setCol df c vs).cols := mem_cols_setCol_self df c vs
  have hA : ∀ (i : ℕ)
      (hi : i < (List.zipWith (fun r v => Function.update r c v) df.rows vs).length),
      (completeRow (setCol df c vs).cols
        ((List.zipWith (fun r v => Function.update r c v) df.rows vs)[i]) = true
        ↔ i < k) := by
    intro i hi
    have hin : i < df.rows.length := by rw [← hlen']; exact hi
    obtain ⟨r, hr⟩ := getElem?_isSome_of_lt hin
    obtain ⟨v, hv⟩ := getElem?_isSome_of_lt (l := vs) (by rw [hlen]; exact hin)
    have hz : (List.zipWith (fun r v => Function.update r c v) df.rows vs)[i]? =
        some (Function.update r c v) := by
      rw [List.getElem?_zipWith, hr, hv]
    have hz' : (List.zipWith (fun r v => Function.update r c v) df.rows vs)[i] =
        Function.update r c v := by
      have hgi := List.getElem?_eq_getElem hi
      rw [hgi] at hz
      exact Option.some.inj hz
    rw [hz']
    constructor
    · intro hcomp
      by_contra hik
      push_neg at hik
      have hvnone : v = none := by
        have hge := hvs_ge i hik hin
        rw [hv] at hge
        exact Option.some.inj hge
      subst hvnone
      have hcc := (List.all_eq_true.mp hcomp) c hccols
      simp at hcc
    · intro hik
      obtain ⟨q, hq⟩ := hvs_lt i hik
      have hvq : v = some q := by
        rw [hv] at hq
        exact Option.some.inj hq
      subst hvq
      rw [completeRow, List.all_eq_true]
      intro x hx
      by_cases hcc : x = c
      · subst hcc
        simp
      · rw [Function.update_noteq hcc]
        rcases (mem_cols_setCol_iff df c x vs).mp hx with hmem | heq
        · exact hnm r (List.getElem?_mem hr) x hmem
        · exact absurd heq hcc
  have htake : (dropnaFrame (setCol df c vs)).rows =
      (List.zipWith (fun r v => Function.update r c v) df.rows vs).take k := by
    show ((setCol df c vs).rows).filter _ = _
    rw [hrows]
    exact filter_eq_take_of_prefix _ _ k hA
  constructor
  · rw [htake, List.length_take, hlen']
    omega
  · intro t ht
    obtain ⟨r, hr⟩ := getElem?_isSome_of_lt (l := df.rows) (show t < df.rows.length by omega)
    obtain ⟨v, hv⟩ := getElem?_isSome_of_lt (l := vs) (t := t) (by rw [hlen]; omega)
    have hz : (List.zipWith (fun r v => Function.update r c v) df.rows vs)[t]? =
        some (Function.update r c v) := by
      rw [List.getElem?_zipWith, hr, hv]
    have hout : (dropnaFrame (setCol df c vs)).rows[t]? = some (Function.update r c v) := by
      rw [htake, List.getElem?_take_of_lt ht, hz]
    simp [getCell, hout, hv]

/-- Counterexample to C6 as stated: in exMidGap the consumed column
(midpoint) has no missing values, yet with horizon 1 the output has 1 row,
not N - h = 2, because dropna() also drops the middle row, whose missing
value sits in the unconsumed extra column x. -/
theorem returns_rowcount_counterexample :
    ((getCol exMidGap .midpoint).all Option.isSome = true) ∧
    (compute_short_term_returns exMidGap 1).rows.length = 1 ∧
    (compute_short_term_returns exMidGap 1).rows.length ≠
      exMidGap.rows.length - (1 : ℤ).toNat := by
  refine ⟨by decide, by decide, by decide⟩

/-- C6 (amended): for a table with no missing value in any column (as the
loader and the upstream fillna guarantee) and a horizon with 1 ≤ h < N, the
return calculator keeps exactly the first N - h rows, and each kept row t
carries future_ret_h(t) = midpoint(t+h)/midpoint(t) - 1. -/
theorem returns_rowcount_and_formula (df : Frame) (h : ℤ)
    (h1 : 1 ≤ h) (hN : h < (df.rows.length : ℤ))
    (hmid : ColName.midpoint ∈ df.cols) (hnm : NoMissing df) :
    (compute_short_term_returns df h).rows.length = df.rows.length - h.toNat ∧
    (∀ t, t < df.rows.length - h.toNat →
      getCell (compute_short_term_returns df h) (.future_ret h) t =
        some (val df .midpoint (t + h.toNat) / val df .midpoint t - 1)) := by
  have hmidlen : (getCol df .midpoint).length = df.rows.length := length_getCol _ _
  have hsh : shiftZ (-h) (getCol df .midpoint) = shiftNegN h.toNat (getCol df .midpoint) := by
    rw [shiftZ, if_neg (by omega), neg_neg]
  have hretlen : ((List.zipWith Cell.div (shiftZ (-h) (getCol df .midpoint))
      (getCol df .midpoint)).map (fun c => Cell.sub c (some 1))).length
      = df.rows.length := by
    simp [hsh, length_shiftNegN, hmidlen]
  have hret_lt : ∀ t, t < df.rows.length - h.toNat →
      ((List.zipWith Cell.div (shiftZ (-h) (getCol df .midpoint))
        (getCol df .midpoint)).map (fun c => Cell.sub c (some 1)))[t]? =
      some (some (val df .midpoint (t + h.toNat) / val df .midpoint t - 1)) := by
    intro t ht
    have hts : t < df.rows.length := by omega
    have htk : t + h.toNat < df.rows.length := by omega
    have hdrop : (shiftNegN h.toNat (getCol df .midpoint))[t]? =
        some (getCell df .midpoint (t + h.toNat)) := by
      rw [shiftNegN, List.getElem?_append_left (by simp [hmidlen]; omega),
        List.getElem?_drop, Nat.add_comm h.toNat t]
      exact getCol_getElem?_lt df .midpoint _ htk
    rw [List.getElem?_map, hsh, List.getElem?_zipWith, hdrop,
      getCol_getElem?_lt df .midpoint t hts,
      getCell_eq_val hnm hmid htk, getCell_eq_val hnm hmid hts]
    simp [Cell.div, Cell.sub]
  have hret_ge : ∀ t, df.rows.length - h.toNat ≤ t → t < df.rows.length →
      ((List.zipWith Cell.div (shiftZ (-h) (getCol df .midpoint))
        (getCol df .midpoint)).map (fun c => Cell.sub c (some 1)))[t]? = some none := by
    intro t htl hts
    have hdrop : (shiftNegN h.toNat (getCol df .midpoint))[t]? = some none := by
      rw [shiftNegN, List.getElem?_append_right (by simp [hmidlen]; omega),
        List.getElem?_replicate, if_pos (by simp [hmidlen]; omega)]
    rw [List.getElem?_map, hsh, List.getElem?_zipWith, hdrop,
      getCol_getElem?_lt df .midpoint t hts]
    simp [cell_none_div, cell_none_sub]
  have hmain := dropna_setCol_prefix df (.future_ret h)
    ((List.zipWith Cell.div (shiftZ (-h) (getCol df .midpoint))
      (getCol df .midpoint)).map (fun c => Cell.sub c (some 1)))
    (df.rows.length - h.toNat) hnm hretlen (by omega)
    (fun t ht => ⟨_, hret_lt t ht⟩)
    (fun t htl hts => hret_ge t htl hts)
  constructor
  · exact hmain.1
  · intro t ht
    have hcell := hmain.2 t ht
    rw [hret_lt t ht] at hcell
    exact hcell

/-- Witness for the amended C6 on exMid with horizon 1: one row remains and
its return is 101/100 - 1. -/
theorem returns_rowcount_and_formula_witness :
    (compute_short_term_returns exMid 1).rows.length =
      exMid.rows.length - (1 : ℤ).toNat ∧
    getCell (compute_short_term_returns exMid 1) (.future_ret 1) 0 =
      some (val exMid .midpoint (0 + (1 : ℤ).toNat) / val exMid .midpoint 0 - 1) := by
  have h := returns_rowcount_and_formula exMid 1
    (by decide) (by decide) (by decide) (by decide)
  exact ⟨h.1, h.2 0 (by decide)⟩

end FeatureAnalysis
